import Mathlib

/-
Verification of the migration sequencer in `lib/set.js` (mongoose-migrate).

The embedding below mirrors the source file:
  * `Set` is the migration set state (`migrations`, `path`, `pos`, and the
    `force` flag consulted by the runner).
  * `positionOfMigration` is the linear title search returning -1 on miss.
  * `_migrate` computes the sub-sequence to run via `Array.prototype.slice`
    semantics (`jsSlice`), advances `pos` optimistically, and drives the
    `next` callback chain (`runUnits`): one unit at a time, halt on the
    first error via `process.exit(1)` (modelled as `Outcome.fatal`).
  * `connect` is split into its two branches: `connectLoad` (the
    `load`/`'new'` branch: `findOne`, missing doc becomes the zero record)
    and `connectSave` (the save branch: `findOne`, then create/overwrite
    the doc, emit `'save'`, call back with the error if any).
  * `migrate` is the public entry point: load, swallow `ENOENT` errors,
    overwrite `pos` from the loaded record otherwise, then `_migrate`.
External effects (mongoose results, unit callbacks) are supplied by an
environment `Env`; the persisted document is an `Option Record` threaded
through explicitly.  Events (`load`/`save`/`migration`/`complete`) and the
list of units whose operation was actually invoked are recorded in the
result so the notification and execution claims can be stated.
-/

namespace MongooseMigrate

/-- A migration unit.  In the source a migration carries a `title` and
`up`/`down` operations; the operations' outcomes are supplied by `Env.ops`
in this embedding, so the unit itself is identified by its title. -/
structure Migration where
  title : String
deriving DecidableEq

/-- Direction of a migrate call (the string `'up'` or `'down'` in the
source). -/
inductive Direction
  | up
  | down
deriving DecidableEq

/-- The migration `Set` constructor state: `this.migrations = []`,
`this.path = path`, `this.pos = 0`; `this.force` is consulted by the
runner (undefined, hence falsy, unless a caller sets it). -/
structure Set where
  migrations : List Migration
  path : String
  pos : Nat
  force : Bool
deriving DecidableEq

/-- The persisted progress document's `migration` field:
`{ pos, migrations }` (the serialized `Set`). -/
structure Record where
  pos : Nat
  migrations : List Migration
deriving DecidableEq

/-- An error surfaced by the store; only its `code` property is inspected
by the source (`'ENOENT' != err.code`). -/
structure StoreErr where
  code : String
deriving DecidableEq

/-- Lifecycle notifications emitted on the `Set` event emitter. -/
inductive Event
  | load
  | save
  | migration (m : Migration) (d : Direction)
  | complete
deriving DecidableEq

/-- How a migrate call terminates: through the caller's completion
callback `fn(err?)`, or fatally via `console.error` + `process.exit(1)`. -/
inductive Outcome
  | callback (err : Option StoreErr)
  | fatal
deriving DecidableEq

/-- Environment supplying the outcomes of external effects: whether
`findOne` throws during the load phase, whether `findOne` throws during
the save phase, whether the document write fails, and the result each
unit's `up`/`down` operation reports to its callback (`true` = success). -/
structure Env where
  loadFindErr : Option StoreErr
  saveFindErr : Option StoreErr
  saveWriteErr : Option StoreErr
  ops : Migration → Direction → Bool

/-- The observable result of one migrate call: the ordered event trace,
the units whose operation was actually invoked (in invocation order), the
final in-memory `Set`, the persisted document, and the terminal outcome. -/
structure RunResult where
  events : List Event
  executed : List Migration
  self : Set
  store : Option Record
  outcome : Outcome
deriving DecidableEq

/-- The error code the load phase swallows. -/
def enoentCode : String := "ENOENT"

/-- `Array.prototype.slice(start, stop)` for non-negative indices:
elements at indices `start ≤ i < min stop l.length`. -/
def jsSlice (l : List α) (start stop : Nat) : List α :=
  (l.take stop).drop start

/-- The loop body of `positionOfMigration`, carrying the running index. -/
def positionOfMigrationFrom (migrations : List Migration) (filename : String)
    (i : Nat) : Int :=
  match migrations with
  | [] => -1
  | m :: rest =>
    if m.title = filename then (i : Int)
    else positionOfMigrationFrom rest filename (i + 1)

/-- `positionOfMigration(migrations, filename)`: index of the first
migration whose `title` equals `filename`, or `-1`. -/
def positionOfMigration (migrations : List Migration) (filename : String) : Int :=
  positionOfMigrationFrom migrations filename 0

/-- The document yielded by the load branch of `connect`:
`doc && doc.migration ? doc.migration : { pos: 0, migrations: [] }`. -/
def loadedRecord (store : Option Record) : Record :=
  match store with
  | some r => r
  | none => { pos := 0, migrations := [] }

/-- The `pos` of the loaded record. -/
def loadedPos (store : Option Record) : Nat :=
  (loadedRecord store).pos

/-- Load branch of `connect` (called from `load` with `type = 'new'`):
`findOne`; a thrown error is passed to the callback, a missing document
becomes the zero record. -/
def connectLoad (env : Env) (store : Option Record) : Except StoreErr Record :=
  match env.loadFindErr with
  | some e => .error e
  | none => .ok (loadedRecord store)

/-- Result of the save branch of `connect`: the store contents after the
attempt, the events emitted, and the error handed to the callback. -/
structure SaveResult where
  store : Option Record
  events : List Event
  err : Option StoreErr
deriving DecidableEq

/-- Save branch of `connect` (called from `save`): `findOne` (a thrown
error returns to the callback before `'save'` is emitted), then create or
overwrite the document with the serialized `Set`, emit `'save'`, and call
back with the write error if any. -/
def connectSave (env : Env) (self : Set) (store : Option Record) : SaveResult :=
  match env.saveFindErr with
  | some e => { store := store, events := [], err := some e }
  | none =>
    match env.saveWriteErr with
    | some e => { store := store, events := [Event.save], err := some e }
    | none =>
      { store := some { pos := self.pos, migrations := self.migrations }
        events := [Event.save]
        err := none }

/-- Resolution of `migrationPos` at the top of `_migrate`: without a name,
`migrations.length` for `'up'` and `0` for `'down'`; with a name, the
result of `positionOfMigration`, where `-1` triggers the fatal
`process.exit(1)` path (modelled as `none`). -/
def resolvePos (self : Set) (direction : Direction)
    (migrationName : Option String) : Option Nat :=
  match migrationName with
  | none =>
    some (match direction with
      | .up => self.migrations.length
      | .down => 0)
  | some nm =>
    let p := positionOfMigration self.migrations nm
    if p = -1 then none else some p.toNat

/-- The sub-sequence computed by the `switch` in `_migrate`:
`migrations.slice(pos, migrationPos + 1)` for `'up'`,
`migrations.slice(migrationPos, pos).reverse()` for `'down'`. -/
def computeQueue (self : Set) (direction : Direction) (migrationPos : Nat) :
    List Migration :=
  match direction with
  | .up => jsSlice self.migrations self.pos (migrationPos + 1)
  | .down => (jsSlice self.migrations migrationPos self.pos).reverse

/-- The optimistic cursor update in `_migrate`: `pos += migrations.length`
for `'up'`, `pos -= migrations.length` for `'down'`. -/
def advancePos (pos : Nat) (direction : Direction) (n : Nat) : Nat :=
  match direction with
  | .up => pos + n
  | .down => pos - n

/-- Result of the `next` callback chain over the computed queue: the
events emitted, the units whose operation was invoked, and whether the
chain reached the `!migration` (done) case (`ok = true`) rather than the
fatal error case. -/
structure UnitsResult where
  events : List Event
  executed : List Migration
  ok : Bool
deriving DecidableEq

/-- The `next` callback chain: emit `'migration'` for the unit at the
head, then either skip it (`force`) or invoke its operation and continue
only when it reports success; an error makes `next` hit the
`process.exit(1)` path. -/
def runUnits (ops : Migration → Direction → Bool) (fc : Bool) (d : Direction) :
    List Migration → UnitsResult
  | [] => { events := [], executed := [], ok := true }
  | m :: rest =>
    if fc then
      let r := runUnits ops fc d rest
      { events := Event.migration m d :: r.events
        executed := r.executed
        ok := r.ok }
    else if ops m d then
      let r := runUnits ops fc d rest
      { events := Event.migration m d :: r.events
        executed := m :: r.executed
        ok := r.ok }
    else
      { events := [Event.migration m d], executed := [m], ok := false }

/-- `Set.prototype._migrate`: resolve the target position (fatal when a
named target is missing), compute the sub-sequence, advance the cursor
optimistically, run the `next` chain, and on completion emit `'complete'`
and `save` the serialized `Set`. -/
def _migrate (env : Env) (self : Set) (store : Option Record)
    (direction : Direction) (migrationName : Option String) : RunResult :=
  match resolvePos self direction migrationName with
  | none =>
    { events := [], executed := [], self := self, store := store
      outcome := .fatal }
  | some migrationPos =>
    let queue := computeQueue self direction migrationPos
    let self' : Set := { self with pos := advancePos self.pos direction queue.length }
    let r := runUnits env.ops self.force direction queue
    if r.ok then
      let s := connectSave env self' store
      { events := r.events ++ Event.complete :: s.events
        executed := r.executed
        self := self'
        store := s.store
        outcome := .callback s.err }
    else
      { events := r.events
        executed := r.executed
        self := self'
        store := store
        outcome := .fatal }

/-- `Set.prototype.migrate`: emit `'load'`, run the load branch of
`connect`; a load error whose `code` is not `'ENOENT'` returns it through
the completion callback, an `'ENOENT'` error is swallowed leaving `pos`
untouched, and on success the loaded `pos` overwrites the in-memory
cursor; then `_migrate`. -/
def migrate (env : Env) (self : Set) (store : Option Record)
    (direction : Direction) (migrationName : Option String) : RunResult :=
  match connectLoad env store with
  | .error e =>
    if e.code ≠ enoentCode then
      { events := [Event.load], executed := [], self := self, store := store
        outcome := .callback (some e) }
    else
      let r := _migrate env self store direction migrationName
      { r with events := Event.load :: r.events }
  | .ok obj =>
    let r := _migrate env { self with pos := obj.pos } store direction migrationName
    { r with events := Event.load :: r.events }

/-- `Set.prototype.up`. -/
def Set.up (env : Env) (self : Set) (store : Option Record)
    (migrationName : Option String) : RunResult :=
  migrate env self store .up migrationName

/-- `Set.prototype.down`. -/
def Set.down (env : Env) (self : Set) (store : Option Record)
    (migrationName : Option String) : RunResult :=
  migrate env self store .down migrationName

/-- A sequence of `up` calls, each threading the in-memory `Set` and the
persisted document produced by the previous call into the next. -/
def runUpSequence (env : Env) : List (Option String) → Set → Option Record →
    Set × Option Record
  | [], self, store => (self, store)
  | name :: rest, self, store =>
    let r := migrate env self store .up name
    runUpSequence env rest r.self r.store

/-! ### Helper lemmas -/

lemma length_jsSlice (l : List α) (a b : Nat) :
    (jsSlice l a b).length = min b l.length - a := by
  simp [jsSlice]

lemma jsSlice_eq_nil_of_le (l : List α) (a b : Nat) (h : b ≤ a) :
    jsSlice l a b = [] := by
  apply List.drop_eq_nil_of_le
  have := List.length_take_le b l
  omega

lemma runUnits_all_ok (ops : Migration → Direction → Bool) (d : Direction)
    (q : List Migration) (h : ∀ m ∈ q, ops m d = true) :
    runUnits ops false d q =
      { events := q.map (fun m => Event.migration m d), executed := q, ok := true } := by
  induction q with
  | nil => rfl
  | cons m rest ih =>
    have hm : ops m d = true := h m (List.mem_cons_self m rest)
    have hr := ih (fun x hx => h x (List.mem_cons_of_mem m hx))
    simp [runUnits, hm, hr]

lemma runUnits_force_mode (ops : Migration → Direction → Bool) (d : Direction)
    (q : List Migration) :
    runUnits ops true d q =
      { events := q.map (fun m => Event.migration m d), executed := [], ok := true } := by
  induction q with
  | nil => rfl
  | cons m rest ih => simp [runUnits, ih]

lemma runUnits_halt (ops : Migration → Direction → Bool) (d : Direction)
    (a : List Migration) (f : Migration) (b : List Migration)
    (ha : ∀ m ∈ a, ops m d = true) (hf : ops f d = false) :
    runUnits ops false d (a ++ f :: b) =
      { events := a.map (fun m => Event.migration m d) ++ [Event.migration f d]
        executed := a ++ [f], ok := false } := by
  induction a with
  | nil => simp [runUnits, hf]
  | cons m rest ih =>
    have hm : ops m d = true := ha m (List.mem_cons_self m rest)
    have hr := ih (fun x hx => ha x (List.mem_cons_of_mem m hx))
    simp [runUnits, hm, hr]

lemma positionOfMigrationFrom_eq_neg_one (l : List Migration) (nm : String)
    (h : ∀ m ∈ l, m.title ≠ nm) (i : Nat) :
    positionOfMigrationFrom l nm i = -1 := by
  induction l generalizing i with
  | nil => rfl
  | cons m rest ih =>
    have hm : m.title ≠ nm := h m (List.mem_cons_self m rest)
    simp [positionOfMigrationFrom, hm,
      ih (fun x hx => h x (List.mem_cons_of_mem m hx))]

lemma positionOfMigration_eq_neg_one (l : List Migration) (nm : String)
    (h : ∀ m ∈ l, m.title ≠ nm) :
    positionOfMigration l nm = -1 :=
  positionOfMigrationFrom_eq_neg_one l nm h 0

/-- Unfolding of `migrate` on the path where the load phase succeeds and
the target position resolves. -/
lemma migrate_ok (env : Env) (self : Set) (store : Option Record)
    (direction : Direction) (migrationName : Option String) (t : Nat)
    (hload : env.loadFindErr = none)
    (ht : resolvePos self direction migrationName = some t) :
    migrate env self store direction migrationName =
      (let self0 : Set := { self with pos := loadedPos store }
       let queue := computeQueue self0 direction t
       let self' : Set := { self0 with pos := advancePos self0.pos direction queue.length }
       let r := runUnits env.ops self.force direction queue
       if r.ok then
         let s := connectSave env self' store
         { events := Event.load :: (r.events ++ Event.complete :: s.events)
           executed := r.executed, self := self', store := s.store
           outcome := .callback s.err }
       else
         { events := Event.load :: r.events, executed := r.executed
           self := self', store := store, outcome := .fatal }) := by
  have hres : resolvePos { self with pos := (loadedRecord store).pos } direction
      migrationName = some t := ht
  simp only [migrate, connectLoad, hload, _migrate, loadedPos, hres]
  split <;> rfl

/-! ### Witness fixtures -/

def wA : Migration := ⟨"a"⟩

def wB : Migration := ⟨"b"⟩

def wC : Migration := ⟨"c"⟩

def wMigs : List Migration := [wA, wB, wC]

def wEnvOk : Env :=
  { loadFindErr := none, saveFindErr := none, saveWriteErr := none
    ops := fun _ _ => true }

def wSelf : Set := { migrations := wMigs, path := "m", pos := 0, force := false }

def wStore3 : Option Record := some { pos := 3, migrations := wMigs }

def wEnvFailB : Env :=
  { loadFindErr := none, saveFindErr := none, saveWriteErr := none
    ops := fun m _ => m.title != wB.title }

def wErrBoom : StoreErr := ⟨"EBOOM"⟩

def wEnvLoadErr : Env :=
  { loadFindErr := some wErrBoom, saveFindErr := none, saveWriteErr := none
    ops := fun _ _ => true }

def wUnknownName : String := "zz"

def wErrEnoent : StoreErr := ⟨"ENOENT"⟩

def wEnvEnoent : Env :=
  { loadFindErr := some wErrEnoent, saveFindErr := none, saveWriteErr := none
    ops := fun _ _ => true }

def wSelfForce : Set := { migrations := wMigs, path := "m", pos := 0, force := true }

def wTitleA : String := "a"

def wPath : String := "m"
/-! ### Claims -/

/-- C1: for an `up` migrate call with loaded cursor `pos`, the units
executed are exactly `migrations[pos .. targetIndex]` inclusive of
`targetIndex` (`resolvePos` yields the index of the named target, or the
end of the list when no name is given), in list order, and the cursor
advances by the count of units executed. -/
theorem up_runs_exact_subsequence (env : Env) (self : Set) (store : Option Record)
    (migrationName : Option String) (t : Nat)
    (hload : env.loadFindErr = none)
    (hforce : self.force = false)
    (ht : resolvePos self .up migrationName = some t)
    (hops : ∀ m ∈ jsSlice self.migrations (loadedPos store) (t + 1),
        env.ops m .up = true) :
    (migrate env self store .up migrationName).executed =
        jsSlice self.migrations (loadedPos store) (t + 1)
    ∧ (migrate env self store .up migrationName).self.pos =
        loadedPos store + (jsSlice self.migrations (loadedPos store) (t + 1)).length := by
  rw [migrate_ok env self store .up migrationName t hload ht]
  dsimp only
  have hq : computeQueue { self with pos := loadedPos store } Direction.up t
      = jsSlice self.migrations (loadedPos store) (t + 1) := rfl
  rw [hq, hforce, runUnits_all_ok env.ops Direction.up _ hops]
  simp [advancePos]

theorem up_runs_exact_subsequence_witness :
    (migrate wEnvOk wSelf none .up none).executed =
        jsSlice wSelf.migrations (loadedPos none) (3 + 1)
    ∧ (migrate wEnvOk wSelf none .up none).self.pos =
        loadedPos none + (jsSlice wSelf.migrations (loadedPos none) (3 + 1)).length :=
  up_runs_exact_subsequence wEnvOk wSelf none none 3 rfl rfl (by decide) (by decide)

/-- C2: for a `down` migrate call with loaded cursor `pos`, the units
executed are exactly `migrations[targetIndex .. pos)` in reverse list
order (`resolvePos` yields the index of the named target, or `0` when no
name is given), and the cursor decreases by the count of units executed. -/
theorem down_runs_reverse_subsequence (env : Env) (self : Set) (store : Option Record)
    (migrationName : Option String) (t : Nat)
    (hload : env.loadFindErr = none)
    (hforce : self.force = false)
    (ht : resolvePos self .down migrationName = some t)
    (hops : ∀ m ∈ (jsSlice self.migrations t (loadedPos store)).reverse,
        env.ops m .down = true) :
    (migrate env self store .down migrationName).executed =
        (jsSlice self.migrations t (loadedPos store)).reverse
    ∧ (migrate env self store .down migrationName).self.pos +
        (jsSlice self.migrations t (loadedPos store)).reverse.length = loadedPos store := by
  rw [migrate_ok env self store .down migrationName t hload ht]
  dsimp only
  have hq : computeQueue { self with pos := loadedPos store } Direction.down t
      = (jsSlice self.migrations t (loadedPos store)).reverse := rfl
  rw [hq, hforce, runUnits_all_ok env.ops Direction.down _ hops]
  have hlen : (jsSlice self.migrations t (loadedPos store)).length ≤ loadedPos store := by
    rw [length_jsSlice]
    omega
  simp [advancePos]
  omega

theorem down_runs_reverse_subsequence_witness :
    (migrate wEnvOk wSelf wStore3 .down none).executed =
        (jsSlice wSelf.migrations 0 (loadedPos wStore3)).reverse
    ∧ (migrate wEnvOk wSelf wStore3 .down none).self.pos +
        (jsSlice wSelf.migrations 0 (loadedPos wStore3)).reverse.length =
        loadedPos wStore3 :=
  down_runs_reverse_subsequence wEnvOk wSelf wStore3 none 0 rfl rfl (by decide) (by decide)

/-- C3: when some unit's operation reports failure, execution halts
immediately: no unit after the failed one runs, save is never reached (the
persisted record keeps its pre-run contents), the `'complete'`
notification does not fire, and the run terminates fatally rather than
returning through the normal completion callback. -/
theorem unit_failure_halts (env : Env) (self : Set) (store : Option Record)
    (direction : Direction) (migrationName : Option String) (t : Nat)
    (a : List Migration) (f : Migration) (b : List Migration)
    (hload : env.loadFindErr = none)
    (hforce : self.force = false)
    (ht : resolvePos self direction migrationName = some t)
    (hq : computeQueue { self with pos := loadedPos store } direction t = a ++ f :: b)
    (ha : ∀ m ∈ a, env.ops m direction = true)
    (hf : env.ops f direction = false) :
    (migrate env self store direction migrationName).executed = a ++ [f]
    ∧ (migrate env self store direction migrationName).outcome = Outcome.fatal
    ∧ (migrate env self store direction migrationName).store = store
    ∧ Event.complete ∉ (migrate env self store direction migrationName).events
    ∧ Event.save ∉ (migrate env self store direction migrationName).events := by
  rw [migrate_ok env self store direction migrationName t hload ht]
  dsimp only
  rw [hq, hforce, runUnits_halt env.ops direction a f b ha hf]
  simp

theorem unit_failure_halts_witness :
    (migrate wEnvFailB wSelf none .up none).executed = [wA] ++ [wB]
    ∧ (migrate wEnvFailB wSelf none .up none).outcome = Outcome.fatal
    ∧ (migrate wEnvFailB wSelf none .up none).store = none
    ∧ Event.complete ∉ (migrate wEnvFailB wSelf none .up none).events
    ∧ Event.save ∉ (migrate wEnvFailB wSelf none .up none).events :=
  unit_failure_halts wEnvFailB wSelf none .up none 3 [wA] wB [wC] rfl rfl
    (by decide) (by decide) (by decide) (by decide)

/-- C4: the load phase treats a missing record as the zero record
`{pos: 0, migrations: []}` with no error; and when loading fails with an
error whose code is not `'ENOENT'`, the migrate call fails immediately
through the completion callback with that error, with zero units executed
and the store untouched. -/
theorem load_default_and_error_propagation (env env2 : Env) (self : Set)
    (store : Option Record) (direction : Direction)
    (migrationName : Option String) (e : StoreErr)
    (h0 : env.loadFindErr = none)
    (h2 : env2.loadFindErr = some e)
    (hcode : e.code ≠ enoentCode) :
    connectLoad env none = Except.ok { pos := 0, migrations := [] }
    ∧ migrate env2 self store direction migrationName =
        { events := [Event.load], executed := [], self := self, store := store
          outcome := Outcome.callback (some e) } := by
  constructor
  · simp [connectLoad, h0, loadedRecord]
  · simp [migrate, connectLoad, h2, hcode]

theorem load_default_and_error_propagation_witness :
    connectLoad wEnvOk none = Except.ok { pos := 0, migrations := [] }
    ∧ migrate wEnvLoadErr wSelf none .up none =
        { events := [Event.load], executed := [], self := wSelf, store := none
          outcome := Outcome.callback (some wErrBoom) } :=
  load_default_and_error_propagation wEnvOk wEnvLoadErr wSelf none .up none
    wErrBoom rfl rfl (by decide)

/-- C6: a migrate call naming a target whose title matches no unit is a
fatal hard stop (`Outcome.fatal`, not a callback return); zero units are
executed, no unit notifications fire, and neither the cursor nor the
persisted record is modified. -/
theorem unknown_target_fatal (env : Env) (self : Set) (store : Option Record)
    (direction : Direction) (nm : String)
    (hload : env.loadFindErr = none)
    (hsync : loadedPos store = self.pos)
    (h : ∀ m ∈ self.migrations, m.title ≠ nm) :
    migrate env self store direction (some nm) =
      { events := [Event.load], executed := [], self := self, store := store
        outcome := Outcome.fatal } := by
  have hpom := positionOfMigration_eq_neg_one self.migrations nm h
  have hres : resolvePos { self with pos := self.pos } direction
      (some nm) = none := by
    simp [resolvePos, hpom]
  have hsync' : (loadedRecord store).pos = self.pos := hsync
  simp [migrate, connectLoad, hload, _migrate, hsync', hres]

theorem unknown_target_fatal_witness :
    migrate wEnvOk wSelf none .up (some wUnknownName) =
      { events := [Event.load], executed := [], self := wSelf, store := none
        outcome := Outcome.fatal } :=
  unknown_target_fatal wEnvOk wSelf none .up wUnknownName rfl rfl (by decide)

/-- C9: a load-phase error whose `code` equals `'ENOENT'` does not fail
the call: the error is swallowed, the in-memory cursor keeps its prior
value (no loaded record overwrites it), and range computation and
execution proceed from that prior cursor exactly as `_migrate` does. -/
theorem enoent_error_swallowed (env : Env) (self : Set) (store : Option Record)
    (direction : Direction) (migrationName : Option String) (e : StoreErr)
    (h : env.loadFindErr = some e)
    (hcode : e.code = enoentCode) :
    migrate env self store direction migrationName =
      { _migrate env self store direction migrationName with
        events :=
          Event.load :: (_migrate env self store direction migrationName).events } := by
  simp [migrate, connectLoad, h, hcode]

theorem enoent_error_swallowed_witness :
    migrate wEnvEnoent wSelf none .up none =
      { _migrate wEnvEnoent wSelf none .up none with
        events := Event.load :: (_migrate wEnvEnoent wSelf none .up none).events } :=
  enoent_error_swallowed wEnvEnoent wSelf none .up none wErrEnoent rfl rfl

/-- C7: with the `force` flag set, an `up` call advances the cursor to the
target exactly as a successful normal run would, while invoking no unit's
`up` operation; one `'migration'` notification still fires per unit of the
computed sub-sequence, followed by `'complete'` and the save. -/
theorem force_up_advances_without_ops (env : Env) (self : Set)
    (store : Option Record) (migrationName : Option String) (t : Nat)
    (hload : env.loadFindErr = none)
    (hforce : self.force = true)
    (hsf : env.saveFindErr = none)
    (hsw : env.saveWriteErr = none)
    (ht : resolvePos self .up migrationName = some t) :
    (migrate env self store .up migrationName).executed = []
    ∧ (migrate env self store .up migrationName).self.pos =
        loadedPos store + (jsSlice self.migrations (loadedPos store) (t + 1)).length
    ∧ (migrate env self store .up migrationName).events =
        Event.load :: ((jsSlice self.migrations (loadedPos store) (t + 1)).map
          (fun m => Event.migration m Direction.up) ++ [Event.complete, Event.save]) := by
  rw [migrate_ok env self store .up migrationName t hload ht]
  dsimp only
  have hq : computeQueue { self with pos := loadedPos store } Direction.up t
      = jsSlice self.migrations (loadedPos store) (t + 1) := rfl
  rw [hq, hforce, runUnits_force_mode env.ops Direction.up _]
  simp [connectSave, hsf, hsw, advancePos]

theorem force_up_advances_without_ops_witness :
    (migrate wEnvOk wSelfForce none .up none).executed = []
    ∧ (migrate wEnvOk wSelfForce none .up none).self.pos =
        loadedPos none + (jsSlice wSelfForce.migrations (loadedPos none) (3 + 1)).length
    ∧ (migrate wEnvOk wSelfForce none .up none).events =
        Event.load :: ((jsSlice wSelfForce.migrations (loadedPos none) (3 + 1)).map
          (fun m => Event.migration m Direction.up) ++ [Event.complete, Event.save]) :=
  force_up_advances_without_ops wEnvOk wSelfForce none none 3 rfl rfl rfl rfl
    (by decide)

/-- C10: when the computed sub-sequence is empty (for `up`, the loaded
cursor is at or past `targetIndex + 1`; for `down`, at or below
`targetIndex`), zero unit operations run and zero `'migration'`
notifications fire, the cursor is unchanged, and the `'complete'`
notification and the save of the record still occur. -/
theorem empty_range_completes_and_saves (env : Env) (self : Set)
    (store : Option Record) (direction : Direction)
    (migrationName : Option String) (t : Nat)
    (hload : env.loadFindErr = none)
    (hsf : env.saveFindErr = none)
    (hsw : env.saveWriteErr = none)
    (ht : resolvePos self direction migrationName = some t)
    (hcond : (direction = Direction.up ∧ t + 1 ≤ loadedPos store)
        ∨ (direction = Direction.down ∧ loadedPos store ≤ t)) :
    (migrate env self store direction migrationName).executed = []
    ∧ (migrate env self store direction migrationName).events =
        [Event.load, Event.complete, Event.save]
    ∧ (migrate env self store direction migrationName).self.pos = loadedPos store
    ∧ (migrate env self store direction migrationName).store =
        some { pos := loadedPos store, migrations := self.migrations } := by
  rcases hcond with ⟨hd, hle⟩ | ⟨hd, hle⟩
  · subst hd
    have hq : computeQueue { self with pos := loadedPos store } Direction.up t
        = [] := jsSlice_eq_nil_of_le self.migrations (loadedPos store) (t + 1) hle
    rw [migrate_ok env self store Direction.up migrationName t hload ht]
    dsimp only
    rw [hq]
    simp [runUnits, connectSave, hsf, hsw, advancePos]
  · subst hd
    have hq : computeQueue { self with pos := loadedPos store } Direction.down t
        = [] := by
      have := jsSlice_eq_nil_of_le self.migrations t (loadedPos store) hle
      simp [computeQueue, this]
    rw [migrate_ok env self store Direction.down migrationName t hload ht]
    dsimp only
    rw [hq]
    simp [runUnits, connectSave, hsf, hsw, advancePos]

theorem empty_range_completes_and_saves_witness :
    (migrate wEnvOk wSelf wStore3 .up (some wTitleA)).executed = []
    ∧ (migrate wEnvOk wSelf wStore3 .up (some wTitleA)).events =
        [Event.load, Event.complete, Event.save]
    ∧ (migrate wEnvOk wSelf wStore3 .up (some wTitleA)).self.pos = loadedPos wStore3
    ∧ (migrate wEnvOk wSelf wStore3 .up (some wTitleA)).store =
        some { pos := loadedPos wStore3, migrations := wSelf.migrations } :=
  empty_range_completes_and_saves wEnvOk wSelf wStore3 .up (some wTitleA) 0
    rfl rfl rfl (by decide) (Or.inl ⟨rfl, by decide⟩)

lemma runUnits_ok_of_all (ops : Migration → Direction → Bool) (fc : Bool)
    (d : Direction) (q : List Migration) (h : ∀ m ∈ q, ops m d = true) :
    (runUnits ops fc d q).ok = true := by
  cases fc
  · rw [runUnits_all_ok ops d q h]
  · rw [runUnits_force_mode ops d q]

/-- State evolution of one `up` call when the store is reachable, saving
succeeds, every unit operation succeeds, and the in-memory cursor agrees
with the persisted one: migrations are preserved, the cursor does not
decrease and stays within the list, and the persisted cursor agrees with
the in-memory one afterwards.  The named target may or may not resolve. -/
lemma up_call_state (env : Env) (self : Set) (store : Option Record)
    (migrationName : Option String)
    (hload : env.loadFindErr = none)
    (hsf : env.saveFindErr = none)
    (hsw : env.saveWriteErr = none)
    (hops : ∀ m d, env.ops m d = true)
    (hsync : loadedPos store = self.pos)
    (hinv : self.pos ≤ self.migrations.length) :
    (migrate env self store .up migrationName).self.migrations = self.migrations
    ∧ self.pos ≤ (migrate env self store .up migrationName).self.pos
    ∧ (migrate env self store .up migrationName).self.pos ≤ self.migrations.length
    ∧ loadedPos (migrate env self store .up migrationName).store =
        (migrate env self store .up migrationName).self.pos := by
  cases hres : resolvePos self Direction.up migrationName with
  | none =>
    have hres' : resolvePos { self with pos := self.pos } Direction.up
        migrationName = none := hres
    have hsync' : (loadedRecord store).pos = self.pos := hsync
    have hmig : migrate env self store .up migrationName =
        { events := [Event.load], executed := [], self := self, store := store
          outcome := Outcome.fatal } := by
      simp [migrate, connectLoad, hload, _migrate, hsync', hres']
    rw [hmig]
    exact ⟨rfl, le_refl _, hinv, hsync⟩
  | some t =>
    rw [migrate_ok env self store Direction.up migrationName t hload hres]
    dsimp only
    have hq : computeQueue { self with pos := loadedPos store } Direction.up t
        = jsSlice self.migrations (loadedPos store) (t + 1) := rfl
    rw [hq]
    have hok : (runUnits env.ops self.force Direction.up
        (jsSlice self.migrations (loadedPos store) (t + 1))).ok = true :=
      runUnits_ok_of_all env.ops self.force Direction.up _ (fun m _ => hops m _)
    rw [hok, hsync]
    have hlen := length_jsSlice self.migrations self.pos (t + 1)
    simp [connectSave, hsf, hsw, advancePos, loadedPos, loadedRecord]
    omega

/-- State evolution of one `down` call: migrations are preserved and the
cursor does not increase, whether or not the target resolves and whatever
the unit operations report. -/
lemma down_call_state (env : Env) (self : Set) (store : Option Record)
    (migrationName : Option String)
    (hload : env.loadFindErr = none)
    (hsync : loadedPos store = self.pos) :
    (migrate env self store .down migrationName).self.migrations = self.migrations
    ∧ (migrate env self store .down migrationName).self.pos ≤ self.pos := by
  cases hres : resolvePos self Direction.down migrationName with
  | none =>
    have hres' : resolvePos { self with pos := self.pos } Direction.down
        migrationName = none := hres
    have hsync' : (loadedRecord store).pos = self.pos := hsync
    have hmig : migrate env self store .down migrationName =
        { events := [Event.load], executed := [], self := self, store := store
          outcome := Outcome.fatal } := by
      simp [migrate, connectLoad, hload, _migrate, hsync', hres']
    rw [hmig]
    exact ⟨rfl, le_refl _⟩
  | some t =>
    rw [migrate_ok env self store Direction.down migrationName t hload hres]
    dsimp only
    constructor
    · split <;> rfl
    · split <;> simp only [advancePos] <;> omega

/-- Across a sequence of `up` calls in a fully successful environment,
migrations are preserved and the cursor is non-decreasing and bounded by
the list length. -/
lemma runUpSequence_state (env : Env)
    (hload : env.loadFindErr = none) (hsf : env.saveFindErr = none)
    (hsw : env.saveWriteErr = none) (hops : ∀ m d, env.ops m d = true) :
    ∀ (names : List (Option String)) (self : Set) (store : Option Record),
      loadedPos store = self.pos → self.pos ≤ self.migrations.length →
      (runUpSequence env names self store).1.migrations = self.migrations
      ∧ self.pos ≤ (runUpSequence env names self store).1.pos
      ∧ (runUpSequence env names self store).1.pos ≤ self.migrations.length := by
  intro names
  induction names with
  | nil =>
    intro self store hsync hinv
    exact ⟨rfl, le_refl _, hinv⟩
  | cons name rest ih =>
    intro self store hsync hinv
    obtain ⟨hm, hle, hbound, hsync'⟩ :=
      up_call_state env self store name hload hsf hsw hops hsync hinv
    obtain ⟨hm2, hle2, hb2⟩ := ih (migrate env self store .up name).self
      (migrate env self store .up name).store hsync' (by rw [hm]; exact hbound)
    simp only [runUpSequence]
    rw [hm] at hm2 hb2
    exact ⟨hm2, le_trans hle hle2, hb2⟩

/-- C5: the invariant `0 ≤ pos ≤ len(migrations)` (the lower bound is
inherent in the `Nat` cursor) is preserved by every `up` and `down` call
given it holds on entry and the loaded cursor agrees with the in-memory
one, and across any sequence of successful `up` calls the cursor is
non-decreasing and never exceeds `len(migrations)`. -/
theorem pos_invariant_and_monotone (env : Env) (self : Set) (store : Option Record)
    (direction : Direction) (migrationName : Option String)
    (names : List (Option String))
    (hload : env.loadFindErr = none)
    (hsf : env.saveFindErr = none)
    (hsw : env.saveWriteErr = none)
    (hops : ∀ m d, env.ops m d = true)
    (hsync : loadedPos store = self.pos)
    (hinv : self.pos ≤ self.migrations.length) :
    (migrate env self store direction migrationName).self.pos ≤
        (migrate env self store direction migrationName).self.migrations.length
    ∧ self.pos ≤ (runUpSequence env names self store).1.pos
    ∧ (runUpSequence env names self store).1.pos ≤
        (runUpSequence env names self store).1.migrations.length := by
  obtain ⟨hm2, hle2, hb2⟩ :=
    runUpSequence_state env hload hsf hsw hops names self store hsync hinv
  refine ⟨?_, hle2, by rw [hm2]; exact hb2⟩
  cases direction with
  | up =>
    obtain ⟨hm, _, hb, _⟩ :=
      up_call_state env self store migrationName hload hsf hsw hops hsync hinv
    rw [hm]
    exact hb
  | down =>
    obtain ⟨hm, hle⟩ := down_call_state env self store migrationName hload hsync
    rw [hm]
    exact le_trans hle hinv

theorem pos_invariant_and_monotone_witness :
    (migrate wEnvOk wSelf none .up none).self.pos ≤
        (migrate wEnvOk wSelf none .up none).self.migrations.length
    ∧ wSelf.pos ≤ (runUpSequence wEnvOk [none, none] wSelf none).1.pos
    ∧ (runUpSequence wEnvOk [none, none] wSelf none).1.pos ≤
        (runUpSequence wEnvOk [none, none] wSelf none).1.migrations.length :=
  pos_invariant_and_monotone wEnvOk wSelf none .up none [none, none]
    rfl rfl rfl (fun _ _ => rfl) rfl (by decide)

/-- Full evaluation of an untargeted `up` call from cursor 0 on a fresh
store when everything succeeds. -/
lemma migrate_up_full (env : Env) (migs : List Migration) (pth : String)
    (hload : env.loadFindErr = none) (hsf : env.saveFindErr = none)
    (hsw : env.saveWriteErr = none) (hops : ∀ x d, env.ops x d = true) :
    migrate env { migrations := migs, path := pth, pos := 0, force := false }
        none .up none =
      { events := Event.load :: (migs.map (fun x => Event.migration x Direction.up)
          ++ [Event.complete, Event.save])
        executed := migs
        self := { migrations := migs, path := pth, pos := migs.length, force := false }
        store := some { pos := migs.length, migrations := migs }
        outcome := Outcome.callback none } := by
  have hres : resolvePos { migrations := migs, path := pth, pos := 0, force := false }
      Direction.up none = some migs.length := rfl
  rw [migrate_ok env _ none Direction.up none migs.length hload hres]
  dsimp only
  have hq : computeQueue
      { migrations := migs, path := pth, pos := loadedPos none, force := false }
      Direction.up migs.length = migs := by
    simp [computeQueue, jsSlice, loadedPos, loadedRecord]
  rw [hq, runUnits_all_ok env.ops Direction.up migs (fun x _ => hops x _)]
  simp [connectSave, hsf, hsw, advancePos, loadedPos, loadedRecord]

/-- Full evaluation of an untargeted `down` call from cursor
`migs.length` with a matching persisted record when everything
succeeds. -/
lemma migrate_down_full (env : Env) (migs : List Migration) (pth : String)
    (hload : env.loadFindErr = none) (hsf : env.saveFindErr = none)
    (hsw : env.saveWriteErr = none) (hops : ∀ x d, env.ops x d = true) :
    migrate env { migrations := migs, path := pth, pos := migs.length, force := false }
        (some { pos := migs.length, migrations := migs }) .down none =
      { events := Event.load ::
          (migs.reverse.map (fun x => Event.migration x Direction.down)
            ++ [Event.complete, Event.save])
        executed := migs.reverse
        self := { migrations := migs, path := pth, pos := 0, force := false }
        store := some { pos := 0, migrations := migs }
        outcome := Outcome.callback none } := by
  have hres : resolvePos
      { migrations := migs, path := pth, pos := migs.length, force := false }
      Direction.down none = some 0 := rfl
  rw [migrate_ok env _ _ Direction.down none 0 hload hres]
  dsimp only
  have hq : computeQueue
      { migrations := migs, path := pth
        pos := loadedPos (some { pos := migs.length, migrations := migs })
        force := false }
      Direction.down 0 = migs.reverse := by
    simp [computeQueue, jsSlice, loadedPos, loadedRecord]
  rw [hq, runUnits_all_ok env.ops Direction.down migs.reverse (fun x _ => hops x _)]
  simp [connectSave, hsf, hsw, advancePos, loadedPos, loadedRecord]

/-- C8: running `up` to the end from cursor 0 and then `down` to the
start, with all unit operations succeeding, returns the cursor to 0;
the `down` operations are invoked in the reverse of the order of the `up`
invocations, and each listed unit's `down` operation is invoked exactly
once. -/
theorem up_then_down_symmetry (env : Env) (migs : List Migration) (pth : String)
    (m : Migration)
    (hload : env.loadFindErr = none) (hsf : env.saveFindErr = none)
    (hsw : env.saveWriteErr = none) (hops : ∀ x d, env.ops x d = true)
    (hnd : migs.Nodup) (hm : m ∈ migs) :
    (let s0 : Set := { migrations := migs, path := pth, pos := 0, force := false }
     let r1 := migrate env s0 none .up none
     let r2 := migrate env r1.self r1.store .down none
     r1.executed = migs
     ∧ r2.executed = r1.executed.reverse
     ∧ r2.self.pos = 0
     ∧ r2.executed.count m = 1) := by
  dsimp only
  rw [migrate_up_full env migs pth hload hsf hsw hops]
  dsimp only
  rw [migrate_down_full env migs pth hload hsf hsw hops]
  refine ⟨rfl, rfl, rfl, ?_⟩
  dsimp only
  rw [List.count_reverse]
  exact List.count_eq_one_of_mem hnd hm

theorem up_then_down_symmetry_witness :
    (let s0 : Set := { migrations := wMigs, path := wPath, pos := 0, force := false }
     let r1 := migrate wEnvOk s0 none .up none
     let r2 := migrate wEnvOk r1.self r1.store .down none
     r1.executed = wMigs
     ∧ r2.executed = r1.executed.reverse
     ∧ r2.self.pos = 0
     ∧ r2.executed.count wA = 1) :=
  up_then_down_symmetry wEnvOk wMigs wPath wA rfl rfl rfl (fun _ _ => rfl)
    (by decide) (by decide)

end MongooseMigrate
